import Mathlib

set_option maxHeartbeats 1000000

/- Verification of the Gherkin feature parser in src/lettuce/parser.py (written with
pyparsing), of the Statement data accessors, and of the selective-clear contract of
the step/callback registries used by src/aloe/testing.py.

The parser is embedded shallowly: each pyparsing element used by the grammar
(Literal, Keyword, Word, CharsNotIn, White, LineEnd, QuotedString, SkipTo,
Optional, MatchFirst, ZeroOrMore, OneOrMore, StringEnd) is modelled as a function
from a parse state to either a value plus a new state or a failure.  pyparsing
threads an absolute location into a fixed input string; the grammar only ever
consults the remaining suffix and the single character just before it (for the
Keyword word-boundary test), so the state keeps exactly those two.  Repetition
combinators take an explicit iteration bound (`fuel`); the top-level entry point
passes one more than the input length, which is sufficient because every repeated
element of this grammar consumes at least one character per iteration. -/

/-- Parse state: remaining input and the character immediately before it. -/
structure PState where
  rem : List Char
  prev : Option Char
deriving DecidableEq, Repr

/-- A parser returns a value and the rest state, or the remaining input at the
point of failure (pyparsing: the exception's location). -/
abbrev Parser (α : Type) : Type := PState → Except (List Char) (α × PState)

/-- pyparsing default whitespace characters (skipped before most tokens). -/
def isWsDefault (c : Char) : Bool := c = ' ' || c = '\t' || c = '\n'

/-- LineEnd's whitespace characters: the default set minus the newline. -/
def isSpaceTab (c : Char) : Bool := c = ' ' || c = '\t'

/-- The last character of `cs`, or `dflt` if `cs` is empty: used to update the
previous-character component after consuming `cs`. -/
def lastOpt (cs : List Char) (dflt : Option Char) : Option Char :=
  match cs.getLast? with
  | some c => some c
  | none => dflt

/-- Skip leading characters satisfying `p` (pyparsing `preParse`). -/
def skipW (p : Char → Bool) (st : PState) : PState :=
  { rem := st.rem.dropWhile p, prev := lastOpt (st.rem.takeWhile p) st.prev }

/-- Match the literal `lit` at the head of `rem`, returning the rest. -/
def dropLit : List Char → List Char → Option (List Char)
  | [], r => some r
  | _ :: _, [] => none
  | a :: l, b :: r => if a = b then dropLit l r else none

/-- pyparsing `Literal` without whitespace skipping. -/
def litRaw (lit : List Char) : Parser Unit := fun st =>
  match dropLit lit st.rem with
  | some rest => .ok ((), { rem := rest, prev := lastOpt lit st.prev })
  | none => .error st.rem

/-- pyparsing `Literal`: skip default whitespace, then match `lit`. -/
def tokLit (lit : List Char) : Parser Unit := fun st =>
  litRaw lit (skipW isWsDefault st)

/-- pyparsing `identChars` for `Keyword`: alphanumerics plus underscore and dollar. -/
def identChar (c : Char) : Bool := c.isAlphanum || c = '_' || c = '$'

/-- The word-boundary test before a keyword: the previous character (if any)
must not be an identifier character. -/
def prevOk : Option Char → Bool
  | none => true
  | some c => !identChar c

/-- pyparsing `Keyword(w)`: skip default whitespace, require a word boundary on
both sides, and match `w` exactly. -/
def keywordP (w : List Char) : Parser String := fun st =>
  let st1 := skipW isWsDefault st
  if prevOk st1.prev then
    match dropLit w st1.rem with
    | some rest =>
      match rest with
      | [] => .ok (String.mk w, { rem := [], prev := lastOpt w st1.prev })
      | c :: _ =>
        if identChar c then .error st1.rem
        else .ok (String.mk w, { rem := rest, prev := lastOpt w st1.prev })
    | none => .error st1.rem
  else .error st1.rem

/-- pyparsing `CharsNotIn(bad)`: no whitespace skipping; one or more characters
outside `bad`, consumed greedily. -/
def charsNotInP (bad : List Char) : Parser String := fun st =>
  let xs := st.rem.takeWhile (fun c => !bad.contains c)
  if xs.isEmpty then .error st.rem
  else .ok (String.mk xs,
    { rem := st.rem.dropWhile (fun c => !bad.contains c), prev := lastOpt xs st.prev })

/-- pyparsing `restOfLine`: everything up to (not including) the next newline,
without whitespace skipping; always succeeds, possibly with an empty result. -/
def restOfLineP : Parser String := fun st =>
  let xs := st.rem.takeWhile (fun c => !(c = '\n'))
  .ok (String.mk xs,
    { rem := st.rem.dropWhile (fun c => !(c = '\n')), prev := lastOpt xs st.prev })

/-- pyparsing `LineEnd`: skip spaces and tabs, then consume a newline, or
succeed at the end of the input. -/
def lineEndP : Parser Unit := fun st =>
  let st1 := skipW isSpaceTab st
  match st1.rem with
  | '\n' :: rest => .ok ((), { rem := rest, prev := some '\n' })
  | [] => .ok ((), st1)
  | _ => .error st1.rem

/-- pyparsing `White()`: one or more whitespace characters, consumed greedily,
with no preliminary skipping. -/
def whiteP : Parser Unit := fun st =>
  let xs := st.rem.takeWhile isWsDefault
  if xs.isEmpty then .error st.rem
  else .ok ((), { rem := st.rem.dropWhile isWsDefault, prev := lastOpt xs st.prev })

/-- pyparsing `printables`: every printable non-whitespace ASCII character. -/
def isPrintableChar (c : Char) : Bool := 33 ≤ c.toNat && c.toNat ≤ 126

/-- pyparsing `Word(good)`: skip default whitespace, then one or more characters
satisfying `good`, consumed greedily. -/
def wordP (good : Char → Bool) : Parser String := fun st =>
  let st1 := skipW isWsDefault st
  let xs := st1.rem.takeWhile good
  if xs.isEmpty then .error st1.rem
  else .ok (String.mk xs, { rem := st1.rem.dropWhile good, prev := lastOpt xs st1.prev })

/-- Does the list start with three double quotes? -/
def startsTriple : List Char → Bool
  | a :: b :: c :: _ => a == '"' && (b == '"' && c == '"')
  | _ => false

/-- Scan for the first occurrence of three consecutive double quotes, returning
the contents before it and the rest after it. -/
def findTriple : List Char → Option (List Char × List Char)
  | [] => none
  | c :: rest =>
    if startsTriple (c :: rest) then some ([], (c :: rest).drop 3)
    else
      match findTriple rest with
      | some (a, b) => some (c :: a, b)
      | none => none

def tripleQuote : List Char := ['"', '"', '"']

/-- pyparsing success monad helpers. -/
def pureP (a : α) : Parser α := fun st => .ok (a, st)

def bindP (p : Parser α) (f : α → Parser β) : Parser β := fun st =>
  match p st with
  | .ok (a, st') => f a st'
  | .error e => .error e

def mapP (f : α → β) (p : Parser α) : Parser β := bindP p (fun a => pureP (f a))

/-- pyparsing `MatchFirst` (the `|` operator): try `p`, then `q`; on double
failure report the failure that got further into the input. -/
def orElseP (p q : Parser α) : Parser α := fun st =>
  match p st with
  | .ok r => .ok r
  | .error e1 =>
    match q st with
    | .ok r => .ok r
    | .error e2 => .error (if e2.length < e1.length then e2 else e1)

/-- pyparsing `Optional`. -/
def optP (p : Parser α) : Parser (Option α) := fun st =>
  match p st with
  | .ok (a, st') => .ok (some a, st')
  | .error _ => .ok (none, st)

/-- Iterated matching for `ZeroOrMore`/`OneOrMore`; `fuel` bounds the number of
iterations and is always instantiated above the input length. -/
def manyAux (p : Parser α) : Nat → PState → List α → List α × PState
  | 0, st, acc => (acc.reverse, st)
  | fuel + 1, st, acc =>
    match p st with
    | .error _ => (acc.reverse, st)
    | .ok (a, st') => manyAux p fuel st' (a :: acc)

/-- pyparsing `ZeroOrMore`. -/
def manyP (fuel : Nat) (p : Parser α) : Parser (List α) := fun st =>
  .ok (manyAux p fuel st [])

/-- pyparsing `OneOrMore`. -/
def many1P (fuel : Nat) (p : Parser α) : Parser (List α) :=
  bindP p fun a => fun st =>
    let r := manyAux p fuel st []
    .ok (a :: r.1, r.2)

/-- Scanning loop for `SkipTo`: try the target at every position, consuming one
character at a time, and stop (without consuming the target) where it matches. -/
def skipToAux (p : Parser α) : List Char → Option Char → List Char → Option (String × PState)
  | [], prev, acc =>
    match p { rem := [], prev := prev } with
    | .ok _ => some (String.mk acc.reverse, { rem := [], prev := prev })
    | .error _ => none
  | c :: rest, prev, acc =>
    match p { rem := c :: rest, prev := prev } with
    | .ok _ => some (String.mk acc.reverse, { rem := c :: rest, prev := prev })
    | .error _ => skipToAux p rest (some c) (c :: acc)

/-- pyparsing `SkipTo(p)`: the skipped text becomes the token. -/
def skipToP (p : Parser α) : Parser String := fun st =>
  match skipToAux p st.rem st.prev [] with
  | some (s, st') => .ok (s, st')
  | none => .error st.rem

/-- pyparsing `StringEnd`: skip default whitespace, then require the end. -/
def stringEndP : Parser Unit := fun st =>
  let st1 := skipW isWsDefault st
  match st1.rem with
  | [] => .ok ((), st1)
  | _ => .error st1.rem

/- ===== AST node types, mirroring the classes in src/lettuce/parser.py ===== -/

/-- `Tag` (parser.py lines 23-34): a single attribute string. -/
structure Tag where
  tag : String
deriving DecidableEq, Repr

/-- `Statement` (parser.py lines 37-87): the statement sentence plus the optional
table or multiline payload set by `Statement.__init__`. -/
structure Statement where
  statement : String
  table : Option (List (List String))
  multiline : Option String
deriving DecidableEq, Repr

/-- `Background` (parser.py lines 90-138): a block holding its steps. -/
structure Background where
  steps : List Statement
deriving DecidableEq, Repr

/-- `Scenario` (parser.py lines 141-150): tags, name, steps and the optional
Examples table. -/
structure Scenario where
  tags : List Tag
  name : String
  steps : List Statement
  examples : Option (List (List String))
deriving DecidableEq, Repr

/-- `Feature` (parser.py lines 153-166): tags, name, optional background and the
scenarios; `Feature.add_blocks` stores no other field. -/
structure Feature where
  tags : List Tag
  name : String
  background : Option Background
  scenarios : List Scenario
deriving DecidableEq, Repr

/-- Python `str.strip` whitespace characters. -/
def isPyWs (c : Char) : Bool :=
  c = ' ' || c = '\t' || c = '\n' || c = '\r' || c = Char.ofNat 11 || c = Char.ofNat 12

/-- Python `str.strip`: drop whitespace from both ends. -/
def pyStrip (s : String) : String :=
  String.mk (((s.data.dropWhile isPyWs).reverse.dropWhile isPyWs).reverse)

/-- Lookup in a Python `dict` built from a key/value pair list: the last binding
of a key wins, as in `dict(zip(keys, row))`. -/
def dictGet (pairs : List (String × String)) (k : String) : Option String :=
  match pairs.reverse.find? (fun q => q.1 = k) with
  | some q => some q.2
  | none => none

/-- `Statement.__init__` (parser.py lines 42-59): the sentence is the keyword
plus the remainder of the line; the optional data becomes the table when it is
a table group, otherwise it becomes the multiline field (which stays `None`
when there is no data at all). -/
def Statement.build (keyword remainder : String)
    (data : Option (List (List String) ⊕ String)) : Statement :=
  { statement := keyword ++ remainder,
    table := match data with
             | some (.inl t) => some t
             | _ => none,
    multiline := match data with
                 | some (.inr m) => some m
                 | _ => none }

/-- `Statement.keys` (parser.py lines 73-78): `tuple(self.table[0])`; the Python
code raises (`TypeError`/`IndexError`) when the table is absent or empty, which
the embedding renders as `none`. -/
def Statement.keys (s : Statement) : Option (List String) :=
  match s.table with
  | none => none
  | some [] => none
  | some (row :: _) => some row

/-- `Statement.hashes` (parser.py lines 80-87): zip every row after the first
against `keys`; the dict built from each zip is kept as the pair list (lookups
go through `dictGet`).  Raises, i.e. `none`, exactly when `keys` does. -/
def Statement.hashes (s : Statement) : Option (List (List (String × String))) :=
  match s.keys with
  | none => none
  | some ks =>
    match s.table with
    | none => none
    | some t => some ((t.drop 1).map (fun row => ks.zip row))

/- ===== The grammar, mirroring parser.py lines 169-252 ===== -/

/-- `EOL = Suppress(lineEnd)` (parser.py line 172). -/
def EOL : Parser Unit := lineEndP

/-- `TAG = Suppress('@') + Word(printables) + EOL` with parse action `Tag`
(parser.py lines 177-178). -/
def TAG : Parser Tag :=
  bindP (tokLit ['@']) fun _ =>
  bindP (wordP isPrintableChar) fun w =>
  bindP EOL fun _ =>
  pureP { tag := w }

/-- One cell of a table row: `CharsNotIn('|\n') + Suppress('|')` (parser.py
line 183). -/
def tableCell : Parser String :=
  bindP (charsNotInP ['|', '\n']) fun cell =>
  bindP (tokLit ['|']) fun _ =>
  pureP cell

/-- `TABLE_ROW = Suppress('|') + OneOrMore(CharsNotIn('|\n') + Suppress('|')) + EOL`
with the parse action stripping every cell (parser.py lines 183-184). -/
def TABLE_ROW (fuel : Nat) : Parser (List String) :=
  bindP (tokLit ['|']) fun _ =>
  bindP (many1P fuel tableCell) fun cells =>
  bindP EOL fun _ =>
  pureP (cells.map pyStrip)

/-- `TABLE = Group(OneOrMore(Group(TABLE_ROW)))('table')` (parser.py line 185). -/
def TABLE (fuel : Nat) : Parser (List (List String)) :=
  many1P fuel (TABLE_ROW fuel)

/-- `MULTILINE = QuotedString('"""', multiline=True)` (parser.py line 190):
skip whitespace, match the opening quotes, capture verbatim up to the first
closing quotes. -/
def MULTILINE : Parser String := fun st =>
  let st1 := skipW isWsDefault st
  match dropLit tripleQuote st1.rem with
  | none => .error st1.rem
  | some r1 =>
    match findTriple r1 with
    | none => .error st1.rem
    | some (content, rest) => .ok (String.mk content, { rem := rest, prev := some '"' })

/-- The statement keywords `Given | When | Then | And` (parser.py line 196). -/
def stmtKeywordP : Parser String :=
  orElseP (keywordP ['G', 'i', 'v', 'e', 'n'])
    (orElseP (keywordP ['W', 'h', 'e', 'n'])
      (orElseP (keywordP ['T', 'h', 'e', 'n']) (keywordP ['A', 'n', 'd'])))

/-- `Optional(TABLE | MULTILINE)` (parser.py line 198): the optional statement
payload; the table alternative is tried first. -/
def STATEMENT_DATA (fuel : Nat) : Parser (Option (List (List String) ⊕ String)) :=
  optP (orElseP (mapP Sum.inl (TABLE fuel)) (mapP Sum.inr MULTILINE))

/-- `STATEMENT` (parser.py lines 195-199): keyword, rest of line, optional
payload, assembled by the `Statement` parse action. -/
def STATEMENT (fuel : Nat) : Parser Statement :=
  bindP stmtKeywordP fun kw =>
  bindP restOfLineP fun remainder =>
  bindP (STATEMENT_DATA fuel) fun data =>
  pureP (Statement.build kw remainder data)

/-- `BACKGROUND_DEFN = Suppress(Keyword('Background') + ':' + EOL)` (parser.py
lines 204-206). -/
def BACKGROUND_DEFN : Parser Unit :=
  bindP (keywordP ['B', 'a', 'c', 'k', 'g', 'r', 'o', 'u', 'n', 'd']) fun _ =>
  bindP (tokLit [':']) fun _ =>
  bindP EOL fun _ =>
  pureP ()

/-- `BACKGROUND` (parser.py lines 208-212): the definition line plus its
statements, combined by `Background.add_statements`. -/
def BACKGROUND (fuel : Nat) : Parser Background :=
  bindP BACKGROUND_DEFN fun _ =>
  bindP (manyP fuel (STATEMENT fuel)) fun sts =>
  pureP { steps := sts }

/-- `SCENARIO_DEFN` (parser.py lines 217-223): tags, the `Scenario` keyword with
an optional suppressed `Outline` keyword, a colon, mandatory whitespace, and the
rest of the line as the name. -/
def SCENARIO_DEFN (fuel : Nat) : Parser (List Tag × String) :=
  bindP (manyP fuel TAG) fun tags =>
  bindP (keywordP ['S', 'c', 'e', 'n', 'a', 'r', 'i', 'o']) fun _ =>
  bindP (optP (keywordP ['O', 'u', 't', 'l', 'i', 'n', 'e'])) fun _ =>
  bindP (tokLit [':']) fun _ =>
  bindP whiteP fun _ =>
  bindP restOfLineP fun name =>
  pureP (tags, name)

/-- The optional Examples block of a scenario:
`Suppress(Keyword('Examples') + ':') + EOL + TABLE('examples')` (parser.py
line 228). -/
def EXAMPLES_PART (fuel : Nat) : Parser (List (List String)) :=
  bindP (keywordP ['E', 'x', 'a', 'm', 'p', 'l', 'e', 's']) fun _ =>
  bindP (tokLit [':']) fun _ =>
  bindP EOL fun _ =>
  TABLE fuel

/-- `SCENARIO` (parser.py lines 225-230): definition, statements, optional
Examples table, combined by `Scenario.add_statements`. -/
def SCENARIO_BLOCK (fuel : Nat) : Parser Scenario :=
  bindP (SCENARIO_DEFN fuel) fun defn =>
  bindP (manyP fuel (STATEMENT fuel)) fun sts =>
  bindP (optP (EXAMPLES_PART fuel)) fun ex =>
  pureP { tags := defn.1, name := defn.2, steps := sts, examples := ex }

/-- `FEATURE_DEFN` (parser.py lines 235-240): tags, the `Feature` keyword, a
colon, mandatory whitespace, and the rest of the line as the name. -/
def FEATURE_DEFN (fuel : Nat) : Parser (List Tag × String) :=
  bindP (manyP fuel TAG) fun tags =>
  bindP (keywordP ['F', 'e', 'a', 't', 'u', 'r', 'e']) fun _ =>
  bindP (tokLit [':']) fun _ =>
  bindP whiteP fun _ =>
  bindP restOfLineP fun name =>
  pureP (tags, name)

/-- The parse results of the `FEATURE` group before `Feature.add_blocks` runs
(parser.py lines 246-251): the defn node, the skipped description text, the
optional background and the scenarios. -/
structure FeatureResults where
  node : List Tag × String
  description : String
  background : Option Background
  scenarios : List Scenario
deriving DecidableEq, Repr

/-- The body of the `FEATURE` group (parser.py lines 246-251): the defn, a
`SkipTo(BACKGROUND | SCENARIO)` capturing the description, an optional
background, one or more scenarios, then the end of the input. -/
def FEATURE_RESULTS (fuel : Nat) : Parser FeatureResults :=
  bindP (FEATURE_DEFN fuel) fun defn =>
  bindP (skipToP (orElseP (mapP (fun _ => ()) (BACKGROUND fuel))
                          (mapP (fun _ => ()) (SCENARIO_BLOCK fuel)))) fun desc =>
  bindP (optP (BACKGROUND fuel)) fun bg =>
  bindP (many1P fuel (SCENARIO_BLOCK fuel)) fun scs =>
  bindP stringEndP fun _ =>
  pureP { node := defn, description := desc, background := bg, scenarios := scs }

/-- `Feature.add_blocks` (parser.py lines 154-166): keeps the node's tags and
name and attaches background and scenarios; the description tokens are not
stored on the feature. -/
def Feature.add_blocks (t : FeatureResults) : Feature :=
  { tags := t.node.1, name := t.node.2, background := t.background,
    scenarios := t.scenarios }

/-- `FEATURE = Group(...)` with parse action `Feature.add_blocks` (parser.py
lines 246-252). -/
def FEATURE (fuel : Nat) : Parser Feature :=
  mapP Feature.add_blocks (FEATURE_RESULTS fuel)

/- ===== from_string and the syntax error value (parser.py lines 255-272) ===== -/

/-- The data printed for a `ParseException` by `from_string` (parser.py lines
263-270): the line number, the column, the offending line's text and the
caret pointer `' ' * (column - 1) + '^'`. -/
structure SyntaxError where
  lineno : Nat
  col : Nat
  line : String
  pointer : String
deriving DecidableEq, Repr

/-- pyparsing `lineno(loc, strg)`: 1 + the number of newlines before `loc`. -/
def pyLineno (s : List Char) (loc : Nat) : Nat :=
  ((s.take loc).filter (fun c => c = '\n')).length + 1

/-- pyparsing `col(loc, strg)`: the distance to the last newline before `loc`. -/
def pyCol (s : List Char) (loc : Nat) : Nat :=
  ((s.take loc).reverse.takeWhile (fun c => !(c = '\n'))).length + 1

/-- pyparsing `line(loc, strg)`: the text of the line containing `loc`. -/
def pyLine (s : List Char) (loc : Nat) : String :=
  String.mk (((s.take loc).reverse.takeWhile (fun c => !(c = '\n'))).reverse
    ++ (s.drop loc).takeWhile (fun c => !(c = '\n')))

/-- Build the syntax error value for a failure whose remaining input was
`errRem` inside the full input `s`. -/
def mkSyntaxError (s : List Char) (errRem : List Char) : SyntaxError :=
  let loc := s.length - errRem.length
  { lineno := pyLineno s loc,
    col := pyCol s loc,
    line := pyLine s loc,
    pointer := String.mk (List.replicate (pyCol s loc - 1) ' ' ++ ['^']) }

/-- Run the full grammar on a string, as `FEATURE.parseString` does. -/
def featureRun (s : String) : Except (List Char) (Feature × PState) :=
  FEATURE (s.data.length + 1) { rem := s.data, prev := none }

/-- `from_string` (parser.py lines 255-272): parse and return the feature, or
surface the parse exception's line number, column, line text and caret pointer. -/
def from_string (s : String) : Except SyntaxError Feature :=
  match featureRun s with
  | .ok (f, _) => .ok f
  | .error errRem => .error (mkSyntaxError s.data errRem)

/- ===== Registry model for the selective-clear contract =====

The registry implementation itself (aloe/registry.py) is not part of the
sources; only its caller is (src/aloe/testing.py lines 234-238, which invokes
`CALLBACK_REGISTRY.clear(priority_class=PriorityClass.USER)` and
`STEP_REGISTRY.clear()`).  The definitions below are therefore modelled from
the specification. -/

/-- Modelled from the spec: the `PriorityClass` ordered enumeration of
aloe/registry.py, absent from the sources.  The selective-clear contract
("clearing USER never removes SYSTEM/LIBRARY definitions" while clear removes
classes at or below the given one) places USER below LIBRARY and SYSTEM. -/
inductive PriorityClass where
  | USER
  | LIBRARY
  | SYSTEM
deriving DecidableEq, Repr

/-- The numeric rank of a priority class. -/
def PriorityClass.rank : PriorityClass → Nat
  | .USER => 0
  | .LIBRARY => 1
  | .SYSTEM => 2

/-- Modelled from the spec: a registered definition of aloe/registry.py, absent
from the sources — a pattern and an opaque handler reference, tagged with its
priority class. -/
structure RegEntry where
  cls : PriorityClass
  pattern : String
  handler : Nat
deriving DecidableEq, Repr

/-- Modelled from the spec: the registry state, an ordered collection of
registered definitions. -/
abbrev Registry : Type := List RegEntry

/-- Modelled from the spec: `clear(priority_class?)` of aloe/registry.py, absent
from the sources — with a class, remove exactly the definitions at or below
that class; with no argument, remove everything. -/
def Registry.clear (reg : Registry) (pc : Option PriorityClass) : Registry :=
  match pc with
  | none => []
  | some c => reg.filter (fun e => c.rank < e.cls.rank)

/- ===== Generic helper lemmas ===== -/

theorem takeWhile_append_all {p : Char → Bool} :
    ∀ (xs : List Char), (∀ x ∈ xs, p x = true) →
      ∀ ys, (xs ++ ys).takeWhile p = xs ++ ys.takeWhile p := by
  intro xs
  induction xs with
  | nil => intro _ ys; simp
  | cons a l ih =>
    intro h ys
    have ha : p a = true := h a (by simp)
    simp [List.takeWhile_cons_of_pos ha, ih (fun x hx => h x (by simp [hx])) ys]

theorem dropWhile_append_all {p : Char → Bool} :
    ∀ (xs : List Char), (∀ x ∈ xs, p x = true) →
      ∀ ys, (xs ++ ys).dropWhile p = ys.dropWhile p := by
  intro xs
  induction xs with
  | nil => intro _ ys; simp
  | cons a l ih =>
    intro h ys
    have ha : p a = true := h a (by simp)
    simp [List.dropWhile_cons_of_pos ha, ih (fun x hx => h x (by simp [hx])) ys]

/-- The first character of `l` (if any) does not satisfy `p`. -/
def headNot (p : Char → Bool) : List Char → Prop
  | [] => True
  | c :: _ => p c = false

theorem takeWhile_stop {p : Char → Bool} :
    ∀ (l : List Char), headNot p l → l.takeWhile p = [] := by
  intro l h
  cases l with
  | nil => simp
  | cons c r => exact List.takeWhile_cons_of_neg (by simp [headNot] at h; simp [h])

theorem dropWhile_stop {p : Char → Bool} :
    ∀ (l : List Char), headNot p l → l.dropWhile p = l := by
  intro l h
  cases l with
  | nil => simp
  | cons c r => exact List.dropWhile_cons_of_neg (by simp [headNot] at h; simp [h])

theorem forall_mem_takeWhile {p : Char → Bool} :
    ∀ (l : List Char), ∀ x ∈ l.takeWhile p, p x = true := by
  intro l
  induction l with
  | nil => simp
  | cons a r ih =>
    intro x hx
    by_cases ha : p a = true
    · rw [List.takeWhile_cons_of_pos ha] at hx
      rcases List.mem_cons.mp hx with h | h
      · cases h; exact ha
      · exact ih x h
    · rw [List.takeWhile_cons_of_neg (by simpa using ha)] at hx
      cases hx

theorem dropLit_append : ∀ (l r : List Char), dropLit l (l ++ r) = some r := by
  intro l
  induction l with
  | nil => intro r; simp [dropLit]
  | cons a t ih => intro r; simp [dropLit, ih r]

/-- `skipW` does nothing when the head is not skippable. -/
theorem skipW_no {p : Char → Bool} (st : PState) (h : headNot p st.rem) :
    skipW p st = st := by
  cases st with
  | mk rem prev =>
    simp only [skipW, dropWhile_stop rem h, takeWhile_stop rem h, lastOpt]
    rfl

/-- `skipW` over a fully skippable block followed by a stop. -/
theorem skipW_over {p : Char → Bool} (xs : List Char) (h : ∀ x ∈ xs, p x = true)
    (rest : List Char) (hr : headNot p rest) (pr : Option Char) :
    skipW p { rem := xs ++ rest, prev := pr } = { rem := rest, prev := lastOpt xs pr } := by
  simp only [skipW, dropWhile_append_all xs h rest, takeWhile_append_all xs h rest,
    dropWhile_stop rest hr, takeWhile_stop rest hr, List.append_nil]

/- ===== Parser combinator rewriting lemmas ===== -/

theorem bindP_ok_of {p : Parser α} {f : α → Parser β} {st : PState} {a : α} {st1 : PState}
    (h : p st = .ok (a, st1)) : bindP p f st = f a st1 := by
  simp [bindP, h]

theorem bindP_err_of {p : Parser α} {f : α → Parser β} {st : PState} {e : List Char}
    (h : p st = .error e) : bindP p f st = .error e := by
  simp [bindP, h]

theorem orElseP_ok_left {p q : Parser α} {st : PState} {r : α × PState}
    (h : p st = .ok r) : orElseP p q st = .ok r := by
  simp [orElseP, h]

theorem orElseP_err_ok {p q : Parser α} {st : PState} {e : List Char} {r : α × PState}
    (h : p st = .error e) (hq : q st = .ok r) : orElseP p q st = .ok r := by
  simp [orElseP, h, hq]

theorem orElseP_err_err {p q : Parser α} {st : PState} {e e2 : List Char}
    (h : p st = .error e) (hq : q st = .error e2) :
    orElseP p q st = .error (if e2.length < e.length then e2 else e) := by
  simp [orElseP, h, hq]

theorem optP_ok_of {p : Parser α} {st : PState} {a : α} {st1 : PState}
    (h : p st = .ok (a, st1)) : optP p st = .ok (some a, st1) := by
  simp [optP, h]

theorem optP_err_of {p : Parser α} {st : PState} {e : List Char}
    (h : p st = .error e) : optP p st = .ok (none, st) := by
  simp [optP, h]

theorem bindP_ok_iff {p : Parser α} {f : α → Parser β} {st : PState} {r : β × PState} :
    bindP p f st = .ok r ↔ ∃ a st1, p st = .ok (a, st1) ∧ f a st1 = .ok r := by
  cases h : p st with
  | ok pr =>
    obtain ⟨a, st1⟩ := pr
    constructor
    · intro hb
      simp only [bindP, h] at hb
      exact ⟨a, st1, rfl, hb⟩
    · rintro ⟨a', st1', h1, h2⟩
      injection h1 with h1
      rw [Prod.mk.injEq] at h1
      obtain ⟨rfl, rfl⟩ := h1
      simp only [bindP, h]
      exact h2
  | error e =>
    constructor
    · intro hb
      simp only [bindP, h] at hb
      exact Except.noConfusion hb
    · rintro ⟨a', st1', h1, h2⟩
      exact Except.noConfusion h1

/- ===== C6: selective clear of the registries ===== -/

/-- C6: clearing at a priority class removes exactly the definitions at or
below that class and leaves every strictly higher definition untouched (in
particular clearing USER touches no SYSTEM or LIBRARY definition), while a
clear with no class empties the registry. -/
theorem C6_selective_clear (reg : Registry) (c : PriorityClass) (e : RegEntry) :
    (e ∈ Registry.clear reg (some c) ↔ e ∈ reg ∧ c.rank < e.cls.rank) ∧
    Registry.clear reg none = [] ∧
    ((∀ x ∈ reg, c.rank < x.cls.rank) → Registry.clear reg (some c) = reg) ∧
    ((e.cls = .SYSTEM ∨ e.cls = .LIBRARY) →
      (e ∈ Registry.clear reg (some .USER) ↔ e ∈ reg)) := by
  refine ⟨?_, rfl, ?_, ?_⟩
  · simp [Registry.clear, List.mem_filter]
  · intro h
    simp only [Registry.clear]
    rw [List.filter_eq_self]
    intro a ha
    simpa using h a ha
  · intro h
    have hrank : PriorityClass.rank .USER < e.cls.rank := by
      rcases h with h | h <;> simp [h, PriorityClass.rank]
    simp [Registry.clear, List.mem_filter, hrank]

/-- Witness for C6 at a concrete registry. -/
theorem C6_selective_clear_witness :
    (∀ x ∈ ([⟨.SYSTEM, "s", 0⟩, ⟨.LIBRARY, "l", 1⟩] : Registry),
      PriorityClass.rank .USER < x.cls.rank) ∧
    Registry.clear ([⟨.SYSTEM, "s", 0⟩, ⟨.LIBRARY, "l", 1⟩] : Registry) (some .USER)
      = [⟨.SYSTEM, "s", 0⟩, ⟨.LIBRARY, "l", 1⟩] := by
  refine ⟨by decide, ?_⟩
  exact (C6_selective_clear [⟨.SYSTEM, "s", 0⟩, ⟨.LIBRARY, "l", 1⟩] .USER
    ⟨.SYSTEM, "s", 0⟩).2.2.1 (by decide)

/- ===== C8: keys and hashes are partial accessors ===== -/

/-- C8: on a Statement with no table (no payload, or a multiline payload) the
`keys` and `hashes` accessors error out instead of returning an empty result,
and they produce a value exactly when the statement carries a table with at
least one row. -/
theorem C8_keys_hashes_require_table (s : Statement) :
    (s.table = none → s.keys = none ∧ s.hashes = none) ∧
    (s.keys.isSome ↔ ∃ t, s.table = some t ∧ t ≠ []) ∧
    (s.hashes.isSome ↔ ∃ t, s.table = some t ∧ t ≠ []) := by
  rcases s with ⟨stmt, tb, ml⟩
  rcases tb with _ | t
  · simp [Statement.keys, Statement.hashes]
  · rcases t with _ | ⟨row, rows⟩
    · simp [Statement.keys, Statement.hashes]
    · simp [Statement.keys, Statement.hashes]

/-- Witness for C8: a multiline-payload statement has no table, and both
accessors error out on it. -/
theorem C8_keys_hashes_require_table_witness :
    (Statement.build "Given" " x" (some (.inr "m"))).table = none ∧
    (Statement.build "Given" " x" (some (.inr "m"))).keys = none ∧
    (Statement.build "Given" " x" (some (.inr "m"))).hashes = none := by
  refine ⟨rfl, ?_⟩
  exact (C8_keys_hashes_require_table (Statement.build "Given" " x" (some (.inr "m")))).1 rfl

/- ===== C3: the end-to-end example document ===== -/

/-- C3 counterexample: on the input `Feature: F\n  desc\n  Scenario: S\n
Given a thing\n` the parse succeeds with name "F", one scenario "S" and one
statement "Given a thing", but the description is not "desc": the raw text the
grammar captures for the description group is `"\n  desc"`, and
`Feature.add_blocks` discards it entirely, so the resulting Feature carries no
description at all (two parses differing only in the captured description text
build the very same Feature value). -/
theorem C3_description_counterexample :
    FEATURE_RESULTS 51
      { rem := ("Feature: F\n  desc\n  Scenario: S\n    Given a thing\n").data, prev := none }
      = .ok ({ node := ([], "F"), description := "\n  desc", background := none,
               scenarios := [{ tags := [], name := "S",
                               steps := [{ statement := "Given a thing",
                                           table := none, multiline := none }],
                               examples := none }] },
             { rem := [], prev := some '\n' }) ∧
    ("\n  desc" : String) ≠ "desc" ∧
    Feature.add_blocks
      { node := ([], "F"), description := "\n  desc", background := none,
        scenarios := [{ tags := [], name := "S",
                        steps := [{ statement := "Given a thing",
                                    table := none, multiline := none }],
                        examples := none }] }
      = Feature.add_blocks
      { node := ([], "F"), description := "desc", background := none,
        scenarios := [{ tags := [], name := "S",
                        steps := [{ statement := "Given a thing",
                                    table := none, multiline := none }],
                        examples := none }] } := by
  refine ⟨by rfl, by decide, rfl⟩

/-- C3 amended: the input parses successfully to one Feature named "F" with a
single Scenario named "S" holding the single Statement "Given a thing"; the
description text between the header and the scenario is consumed but not
retained on the Feature. -/
theorem C3_end_to_end_amended :
    from_string "Feature: F\n  desc\n  Scenario: S\n    Given a thing\n"
      = .ok { tags := [], name := "F", background := none,
              scenarios := [{ tags := [], name := "S",
                              steps := [{ statement := "Given a thing",
                                          table := none, multiline := none }],
                              examples := none }] } := by
  rfl

/- ===== C5: a Statement has at most one payload kind ===== -/

/-- C5: every Statement produced by the statement rule has at most one payload
(never both a table and a multiline), and when the table alternative can match,
the payload choice takes it in preference to the multiline (first match wins). -/
theorem C5_payload_exclusive :
    (∀ (fuel : Nat) (st : PState) (stmt : Statement) (st' : PState),
      STATEMENT fuel st = .ok (stmt, st') →
      stmt.table = none ∨ stmt.multiline = none) ∧
    (∀ (fuel : Nat) (st : PState) (t : List (List String)) (st' : PState),
      TABLE fuel st = .ok (t, st') →
      STATEMENT_DATA fuel st = .ok (some (.inl t), st')) := by
  constructor
  · intro fuel st stmt st' h
    simp only [STATEMENT] at h
    rw [bindP_ok_iff] at h
    obtain ⟨kw, st1, h1, h⟩ := h
    rw [bindP_ok_iff] at h
    obtain ⟨remainder, st2, h2, h⟩ := h
    rw [bindP_ok_iff] at h
    obtain ⟨data, st3, h3, h⟩ := h
    simp only [pureP] at h
    injection h with h
    rw [Prod.mk.injEq] at h
    obtain ⟨rfl, rfl⟩ := h
    rcases data with _ | d
    · left; rfl
    · rcases d with t | m
      · right; rfl
      · left; rfl
  · intro fuel st t st' h
    have ht : mapP Sum.inl (TABLE fuel) st
        = .ok ((Sum.inl t : List (List String) ⊕ String), st') := by
      simp [mapP, bindP, pureP, h]
    simp only [STATEMENT_DATA]
    rw [optP_ok_of (orElseP_ok_left ht)]

/-- Witness for C5: a plain statement with no payload, and a table that the
payload choice selects. -/
theorem C5_payload_exclusive_witness :
    STATEMENT 9 { rem := ("Given x\n").data, prev := none }
      = .ok ({ statement := "Given x", table := none, multiline := none },
             { rem := ['\n'], prev := some 'x' }) ∧
    (({ statement := "Given x", table := none, multiline := none } : Statement).table = none ∨
     ({ statement := "Given x", table := none, multiline := none } : Statement).multiline = none) ∧
    TABLE 4 { rem := ("|a|\n").data, prev := none }
      = .ok ([["a"]], { rem := [], prev := some '\n' }) ∧
    STATEMENT_DATA 4 { rem := ("|a|\n").data, prev := none }
      = .ok (some (.inl [["a"]]), { rem := [], prev := some '\n' }) := by
  refine ⟨by rfl, ?_, by rfl, ?_⟩
  · exact C5_payload_exclusive.1 9 { rem := ("Given x\n").data, prev := none } _ _ (by rfl)
  · exact C5_payload_exclusive.2 4 { rem := ("|a|\n").data, prev := none } [["a"]]
      { rem := [], prev := some '\n' } (by rfl)

/- ===== Success and failure lemmas for the grammar primitives ===== -/

theorem manyAux_stop {p : Parser α} {st : PState} {e : List Char} (h : p st = .error e) :
    ∀ (fuel : Nat) (acc : List α), manyAux p fuel st acc = (acc.reverse, st) := by
  intro fuel acc
  cases fuel with
  | zero => rfl
  | succ n => simp [manyAux, h]

theorem manyP_stop {p : Parser α} {st : PState} {e : List Char} (h : p st = .error e)
    (fuel : Nat) : manyP fuel p st = .ok ([], st) := by
  simp [manyP, manyAux_stop h fuel []]

/-- A tag rule fails whenever the first character (with nothing to skip) is
not the `@` sign. -/
theorem TAG_fail {st : PState} {c : Char} {r : List Char}
    (hrem : st.rem = c :: r) (hws : isWsDefault c = false) (hc : ¬c = '@') :
    TAG st = .error st.rem := by
  have hskip : skipW isWsDefault st = st := skipW_no st (by rw [hrem]; exact hws)
  simp only [TAG]
  apply bindP_err_of
  simp only [tokLit, hskip, litRaw, hrem, dropLit]
  rw [if_neg (fun h => hc h.symm)]

/-- Keyword success through an explicitly given whitespace skip. -/
theorem keywordP_ok' {w : List Char} {st st1 : PState} {c : Char} {r : List Char}
    (hskip : skipW isWsDefault st = st1)
    (hrem : st1.rem = w ++ c :: r)
    (hprev : prevOk st1.prev = true)
    (hc : identChar c = false) :
    keywordP w st = .ok (String.mk w, { rem := c :: r, prev := lastOpt w st1.prev }) := by
  simp only [keywordP, hskip, hprev, if_true, hrem, dropLit_append, hc]
  simp

/-- Keyword failure on a bad word boundary before the keyword. -/
theorem keywordP_fail_prev {w : List Char} {st st1 : PState}
    (hskip : skipW isWsDefault st = st1)
    (hprev : prevOk st1.prev = false) :
    keywordP w st = .error st1.rem := by
  simp [keywordP, hskip, hprev]

/-- Keyword failure when the input (after the skip) does not start with it. -/
theorem keywordP_fail_lit {w : List Char} {st st1 : PState}
    (hskip : skipW isWsDefault st = st1)
    (hlit : dropLit w st1.rem = none) :
    keywordP w st = .error st1.rem := by
  cases hprev : prevOk st1.prev with
  | false => simp [keywordP, hskip, hprev]
  | true => simp [keywordP, hskip, hprev, hlit]

/-- Literal token success through an explicitly given whitespace skip. -/
theorem tokLit_ok' {lit : List Char} {st st1 : PState} {r : List Char}
    (hskip : skipW isWsDefault st = st1)
    (hrem : st1.rem = lit ++ r) :
    tokLit lit st = .ok ((), { rem := r, prev := lastOpt lit st1.prev }) := by
  simp [tokLit, litRaw, hskip, hrem, dropLit_append]

/-- Literal token failure. -/
theorem tokLit_fail {lit : List Char} {st st1 : PState}
    (hskip : skipW isWsDefault st = st1)
    (hlit : dropLit lit st1.rem = none) :
    tokLit lit st = .error st1.rem := by
  simp [tokLit, litRaw, hskip, hlit]

/- ===== C10: `Scenario:` and `Scenario Outline:` parse identically ===== -/

/-- C10: on any input, replacing the header `Scenario:` by `Scenario Outline:`
(same name and body after the colon) gives the scenario rule the very same
result — the Outline keyword is consumed and suppressed, and no field of the
resulting Scenario records that it was declared as an outline. -/
theorem C10_outline_equivalence (fuel : Nat) (p : Option Char) (r : List Char)
    (hp : prevOk p = true) :
    SCENARIO_BLOCK fuel { rem := ("Scenario:").data ++ r, prev := p }
      = SCENARIO_BLOCK fuel { rem := ("Scenario Outline:").data ++ r, prev := p } := by
  have hdA : ("Scenario:" : String).data = ['S','c','e','n','a','r','i','o',':'] := rfl
  have hdB : ("Scenario Outline:" : String).data
      = ['S','c','e','n','a','r','i','o',' ','O','u','t','l','i','n','e',':'] := rfl
  rw [hdA, hdB]
  have htagA : TAG { rem := ['S','c','e','n','a','r','i','o',':'] ++ r, prev := p }
      = .error (['S','c','e','n','a','r','i','o',':'] ++ r) :=
    TAG_fail (c := 'S') (r := ['c','e','n','a','r','i','o',':'] ++ r) rfl (by decide)
      (by decide)
  have hmanyA : manyP fuel TAG { rem := ['S','c','e','n','a','r','i','o',':'] ++ r, prev := p }
      = .ok ([], { rem := ['S','c','e','n','a','r','i','o',':'] ++ r, prev := p }) :=
    manyP_stop htagA fuel
  have hkwA : keywordP ['S','c','e','n','a','r','i','o']
      { rem := ['S','c','e','n','a','r','i','o',':'] ++ r, prev := p }
      = .ok (String.mk ['S','c','e','n','a','r','i','o'], { rem := ':' :: r, prev := some 'o' }) := by
    exact keywordP_ok' (c := ':') (r := r)
      (skipW_no _ (by constructor)) (by simp) hp (by decide)
  have houtA : keywordP ['O','u','t','l','i','n','e'] { rem := ':' :: r, prev := some 'o' }
      = .error (':' :: r) :=
    keywordP_fail_prev (skipW_no _ (by constructor)) rfl
  have hoptA : optP (keywordP ['O','u','t','l','i','n','e'])
      { rem := ':' :: r, prev := some 'o' }
      = .ok (none, { rem := ':' :: r, prev := some 'o' }) := optP_err_of houtA
  have hcolA : tokLit [':'] { rem := ':' :: r, prev := some 'o' }
      = .ok ((), { rem := r, prev := some ':' }) :=
    tokLit_ok' (r := r) (skipW_no _ (by constructor)) rfl
  have eqA : SCENARIO_DEFN fuel { rem := ['S','c','e','n','a','r','i','o',':'] ++ r, prev := p }
      = bindP whiteP (fun _ => bindP restOfLineP fun name => pureP (([] : List Tag), name))
          { rem := r, prev := some ':' } := by
    simp only [SCENARIO_DEFN, bindP_ok_of hmanyA, bindP_ok_of hkwA, bindP_ok_of hoptA,
      bindP_ok_of hcolA]
  have htagB : TAG { rem := ['S','c','e','n','a','r','i','o',' ','O','u','t','l','i','n','e',':'] ++ r, prev := p }
      = .error (['S','c','e','n','a','r','i','o',' ','O','u','t','l','i','n','e',':'] ++ r) :=
    TAG_fail (c := 'S') (r := ['c','e','n','a','r','i','o',' ','O','u','t','l','i','n','e',':'] ++ r)
      rfl (by decide) (by decide)
  have hmanyB : manyP fuel TAG
      { rem := ['S','c','e','n','a','r','i','o',' ','O','u','t','l','i','n','e',':'] ++ r, prev := p }
      = .ok ([], { rem := ['S','c','e','n','a','r','i','o',' ','O','u','t','l','i','n','e',':'] ++ r, prev := p }) :=
    manyP_stop htagB fuel
  have hkwB : keywordP ['S','c','e','n','a','r','i','o']
      { rem := ['S','c','e','n','a','r','i','o',' ','O','u','t','l','i','n','e',':'] ++ r, prev := p }
      = .ok (String.mk ['S','c','e','n','a','r','i','o'],
             { rem := ' ' :: (['O','u','t','l','i','n','e'] ++ (':' :: r)), prev := some 'o' }) := by
    exact keywordP_ok' (c := ' ') (r := ['O','u','t','l','i','n','e'] ++ (':' :: r))
      (skipW_no _ (by constructor)) (by simp) hp (by decide)
  have houtB : keywordP ['O','u','t','l','i','n','e']
      { rem := ' ' :: (['O','u','t','l','i','n','e'] ++ (':' :: r)), prev := some 'o' }
      = .ok (String.mk ['O','u','t','l','i','n','e'], { rem := ':' :: r, prev := some 'e' }) := by
    exact keywordP_ok' (c := ':') (r := r)
      (skipW_over [' '] (by decide) (['O','u','t','l','i','n','e'] ++ (':' :: r))
        (by constructor) (some 'o'))
      rfl rfl (by decide)
  have hoptB : optP (keywordP ['O','u','t','l','i','n','e'])
      { rem := ' ' :: (['O','u','t','l','i','n','e'] ++ (':' :: r)), prev := some 'o' }
      = .ok (some (String.mk ['O','u','t','l','i','n','e']), { rem := ':' :: r, prev := some 'e' }) :=
    optP_ok_of houtB
  have hcolB : tokLit [':'] { rem := ':' :: r, prev := some 'e' }
      = .ok ((), { rem := r, prev := some ':' }) :=
    tokLit_ok' (r := r) (skipW_no _ (by constructor)) rfl
  have eqB : SCENARIO_DEFN fuel
      { rem := ['S','c','e','n','a','r','i','o',' ','O','u','t','l','i','n','e',':'] ++ r, prev := p }
      = bindP whiteP (fun _ => bindP restOfLineP fun name => pureP (([] : List Tag), name))
          { rem := r, prev := some ':' } := by
    simp only [SCENARIO_DEFN, bindP_ok_of hmanyB, bindP_ok_of hkwB, bindP_ok_of hoptB,
      bindP_ok_of hcolB]
  have hdefn := eqA.trans eqB.symm
  simp only [SCENARIO_BLOCK, bindP, hdefn]

/-- Witness for C10 at a concrete suffix. -/
theorem C10_outline_equivalence_witness :
    prevOk none = true ∧
    SCENARIO_BLOCK 9 { rem := ("Scenario:").data ++ (' ' :: ('S' :: ['\n'])), prev := none }
      = SCENARIO_BLOCK 9 { rem := ("Scenario Outline:").data ++ (' ' :: ('S' :: ['\n'])), prev := none } :=
  ⟨rfl, C10_outline_equivalence 9 none (' ' :: ('S' :: ['\n'])) rfl⟩

theorem mapP_ok_of {p : Parser α} {f : α → β} {st st' : PState} {a : α}
    (h : p st = .ok (a, st')) : mapP f p st = .ok (f a, st') := by
  simp [mapP, bindP, pureP, h]

theorem mapP_err_of {p : Parser α} {f : α → β} {st : PState} {e : List Char}
    (h : p st = .error e) : mapP f p st = .error e := bindP_err_of h

theorem many1P_err {p : Parser α} {fuel : Nat} {st : PState} {e : List Char}
    (h : p st = .error e) : many1P fuel p st = .error e := bindP_err_of h

/-- Keyword success where only the non-identifier head of the suffix matters. -/
theorem keywordP_ok2 {w : List Char} {st st1 : PState} {suffix : List Char}
    (hskip : skipW isWsDefault st = st1)
    (hrem : st1.rem = w ++ suffix)
    (hprev : prevOk st1.prev = true)
    (hne : suffix ≠ [])
    (hc : headNot identChar suffix) :
    keywordP w st = .ok (String.mk w, { rem := suffix, prev := lastOpt w st1.prev }) := by
  cases suffix with
  | nil => cases hne rfl
  | cons c cs => exact keywordP_ok' hskip hrem hprev hc

theorem charsNotInP_ok {bad : List Char} {st : PState} {xs rest : List Char}
    (hrem : st.rem = xs ++ rest)
    (hxs : ∀ c ∈ xs, (!bad.contains c) = true)
    (hne : xs ≠ [])
    (hstop : headNot (fun c => !bad.contains c) rest) :
    charsNotInP bad st = .ok (String.mk xs, { rem := rest, prev := lastOpt xs st.prev }) := by
  simp only [charsNotInP, hrem, takeWhile_append_all xs hxs rest, takeWhile_stop rest hstop,
    dropWhile_append_all xs hxs rest, dropWhile_stop rest hstop, List.append_nil]
  cases xs with
  | nil => cases hne rfl
  | cons x t => simp [List.isEmpty]

theorem charsNotInP_fail {bad : List Char} {st : PState}
    (hstop : headNot (fun c => !bad.contains c) st.rem) :
    charsNotInP bad st = .error st.rem := by
  simp only [charsNotInP, takeWhile_stop _ hstop]
  rfl

theorem restOfLineP_ok {st : PState} {xs rest : List Char}
    (hrem : st.rem = xs ++ rest)
    (hxs : ∀ c ∈ xs, (!(c = '\n') : Bool) = true)
    (hstop : headNot (fun c => !(c = '\n')) rest) :
    restOfLineP st = .ok (String.mk xs, { rem := rest, prev := lastOpt xs st.prev }) := by
  simp only [restOfLineP, hrem, takeWhile_append_all xs hxs rest, takeWhile_stop rest hstop,
    dropWhile_append_all xs hxs rest, dropWhile_stop rest hstop, List.append_nil]

theorem lineEndP_nl {st : PState} {rest : List Char} (hrem : st.rem = '\n' :: rest) :
    EOL st = .ok ((), { rem := rest, prev := some '\n' }) := by
  have hskip : skipW isSpaceTab st = st := skipW_no st (by rw [hrem]; exact rfl)
  simp only [EOL, lineEndP, hskip, hrem]

theorem lineEndP_fail {st : PState} {c : Char} {rest : List Char}
    (hrem : st.rem = c :: rest) (hst : isSpaceTab c = false) (hnl : ¬ c = '\n') :
    EOL st = .error st.rem := by
  have hskip : skipW isSpaceTab st = st := skipW_no st (by rw [hrem]; exact hst)
  simp only [EOL, lineEndP, hskip, hrem]
  split
  · rename_i heq
    injection heq with h1 h2
    exact absurd h1 hnl
  · rename_i heq
    exact absurd heq (by simp)
  · rfl

theorem whiteP_ok {st : PState} {x u : List Char}
    (hrem : st.rem = x ++ u)
    (hxs : ∀ c ∈ x, isWsDefault c = true)
    (hne : x ≠ [])
    (hstop : headNot isWsDefault u) :
    whiteP st = .ok ((), { rem := u, prev := lastOpt x st.prev }) := by
  simp only [whiteP, hrem, takeWhile_append_all x hxs u, takeWhile_stop u hstop,
    dropWhile_append_all x hxs u, dropWhile_stop u hstop, List.append_nil]
  cases x with
  | nil => cases hne rfl
  | cons y t => simp [List.isEmpty]

theorem wordP_ok {good : Char → Bool} {st st1 : PState} {xs rest : List Char}
    (hskip : skipW isWsDefault st = st1)
    (hrem : st1.rem = xs ++ rest)
    (hxs : ∀ c ∈ xs, good c = true)
    (hne : xs ≠ [])
    (hstop : headNot good rest) :
    wordP good st = .ok (String.mk xs, { rem := rest, prev := lastOpt xs st1.prev }) := by
  simp only [wordP, hskip, hrem, takeWhile_append_all xs hxs rest, takeWhile_stop rest hstop,
    dropWhile_append_all xs hxs rest, dropWhile_stop rest hstop, List.append_nil]
  cases xs with
  | nil => cases hne rfl
  | cons x t => simp [List.isEmpty]

/- ===== Rendering and parsing of tables ===== -/

/-- A syntactically well-formed table cell: nonempty, with no `|` and no
newline (the claim's condition on cells). -/
def validCell (s : String) : Prop :=
  s.data ≠ [] ∧ ∀ c ∈ s.data, ¬ c = '|' ∧ ¬ c = '\n'

instance (s : String) : Decidable (validCell s) := by
  unfold validCell
  infer_instance

/-- The source text of the cells of a row after its opening `|`:
each cell followed by its closing `|`. -/
def cellsText (cells : List String) : List Char :=
  (cells.map (fun s => s.data ++ ['|'])).flatten

/-- The source text of one table row: `|cell|cell|` and a newline. -/
def rowText (cells : List String) : List Char :=
  '|' :: (cellsText cells ++ ['\n'])

/-- The source text of a table: its rows, one per line. -/
def tableText (rows : List (List String)) : List Char :=
  (rows.map rowText).flatten

theorem cell_pred {s : String} (hv : validCell s) :
    ∀ c ∈ s.data, (!(['|', '\n'] : List Char).contains c) = true := by
  intro c hc
  obtain ⟨h1, h2⟩ := hv.2 c hc
  simp [List.contains]
  exact ⟨h1, h2⟩

/-- One cell plus its closing bar parses off the front of the cell text. -/
theorem tableCell_ok {c : String} (hv : validCell c) (tail : List Char) :
    tableCell { rem := c.data ++ ('|' :: tail), prev := some '|' }
      = .ok (c, { rem := tail, prev := some '|' }) := by
  have hchars : charsNotInP ['|', '\n'] { rem := c.data ++ ('|' :: tail), prev := some '|' }
      = .ok (String.mk c.data, { rem := '|' :: tail, prev := lastOpt c.data (some '|') }) :=
    charsNotInP_ok rfl (cell_pred hv) hv.1 rfl
  have htok : tokLit ['|'] { rem := '|' :: tail, prev := lastOpt c.data (some '|') }
      = .ok ((), { rem := tail, prev := some '|' }) :=
    tokLit_ok' (r := tail) (skipW_no _ rfl) rfl
  have hmk : String.mk c.data = c := rfl
  simp only [tableCell, bindP_ok_of hchars, bindP_ok_of htok, pureP, hmk]

/-- A cell cannot start at a bar or a newline. -/
theorem tableCell_fail {st : PState} {c : Char} {rest : List Char}
    (hrem : st.rem = c :: rest) (hc : c = '|' ∨ c = '\n') :
    tableCell st = .error st.rem := by
  have hstop : headNot (fun c => !(['|', '\n'] : List Char).contains c) st.rem := by
    rw [hrem]
    rcases hc with h | h <;> rw [h] <;> rfl
  exact bindP_err_of (charsNotInP_fail hstop)

/-- The cell loop of a table row consumes exactly the rendered cells. -/
theorem manyAux_cells (cells : List String) (hv : ∀ s ∈ cells, validCell s) :
    ∀ (fuel : Nat), cells.length ≤ fuel →
    ∀ (rest e : List Char),
      tableCell { rem := rest, prev := some '|' } = .error e →
    ∀ (acc : List String),
      manyAux tableCell fuel { rem := cellsText cells ++ rest, prev := some '|' } acc
        = (acc.reverse ++ cells, { rem := rest, prev := some '|' }) := by
  induction cells with
  | nil =>
    intro fuel _ rest e herr acc
    have h0 : cellsText ([] : List String) ++ rest = rest := by simp [cellsText]
    rw [h0, manyAux_stop herr fuel acc]
    simp
  | cons c cs ih =>
    intro fuel hfuel rest e herr acc
    have hcellrem : cellsText (c :: cs) ++ rest
        = c.data ++ ('|' :: (cellsText cs ++ rest)) := by
      simp [cellsText, List.append_assoc]
    have hcell : tableCell { rem := cellsText (c :: cs) ++ rest, prev := some '|' }
        = .ok (c, { rem := cellsText cs ++ rest, prev := some '|' }) := by
      rw [hcellrem]
      exact tableCell_ok (hv c (by simp)) (cellsText cs ++ rest)
    cases fuel with
    | zero => simp at hfuel
    | succ n =>
      simp only [manyAux, hcell]
      rw [ih (fun s hs => hv s (by simp [hs])) n (Nat.le_of_succ_le_succ hfuel) rest e herr
        (c :: acc)]
      simp

/-- A fully rendered row parses to its trimmed cells and consumes its final
newline. -/
theorem TABLE_ROW_ok (cells : List String) (hv : ∀ s ∈ cells, validCell s)
    (hne : cells ≠ []) (fuel : Nat) (hfuel : cells.length ≤ fuel + 1)
    (rest : List Char) (pr : Option Char) :
    TABLE_ROW fuel { rem := rowText cells ++ rest, prev := pr }
      = .ok (cells.map pyStrip, { rem := rest, prev := some '\n' }) := by
  obtain ⟨c, cs, rfl⟩ := List.exists_cons_of_ne_nil hne
  have hrow : rowText (c :: cs) ++ rest = '|' :: (cellsText (c :: cs) ++ ('\n' :: rest)) := by
    simp [rowText, List.append_assoc]
  rw [hrow]
  have htok : tokLit ['|'] { rem := '|' :: (cellsText (c :: cs) ++ ('\n' :: rest)), prev := pr }
      = .ok ((), { rem := cellsText (c :: cs) ++ ('\n' :: rest), prev := some '|' }) :=
    tokLit_ok' (r := cellsText (c :: cs) ++ ('\n' :: rest)) (skipW_no _ rfl) rfl
  have herr : tableCell { rem := '\n' :: rest, prev := some '|' } = .error ('\n' :: rest) :=
    tableCell_fail rfl (Or.inr rfl)
  have hcellrem : cellsText (c :: cs) ++ ('\n' :: rest)
      = c.data ++ ('|' :: (cellsText cs ++ ('\n' :: rest))) := by
    simp [cellsText, List.append_assoc]
  have hfirst : tableCell { rem := cellsText (c :: cs) ++ ('\n' :: rest), prev := some '|' }
      = .ok (c, { rem := cellsText cs ++ ('\n' :: rest), prev := some '|' }) := by
    rw [hcellrem]
    exact tableCell_ok (hv c (by simp)) _
  have hloop := manyAux_cells cs (fun s hs => hv s (by simp [hs])) fuel
    (Nat.le_of_succ_le_succ hfuel) ('\n' :: rest) ('\n' :: rest) herr []
  have hmany : many1P fuel tableCell
      { rem := cellsText (c :: cs) ++ ('\n' :: rest), prev := some '|' }
      = .ok (c :: cs, { rem := '\n' :: rest, prev := some '|' }) := by
    simp only [many1P, bindP_ok_of hfirst, hloop]
    simp
  have heol : EOL { rem := '\n' :: rest, prev := some '|' }
      = .ok ((), { rem := rest, prev := some '\n' }) := lineEndP_nl rfl
  simp only [TABLE_ROW, bindP_ok_of htok, bindP_ok_of hmany, bindP_ok_of heol, pureP]

/-- The row loop of a table consumes exactly the rendered rows. -/
theorem manyAux_rows (fuel : Nat) (rest e : List Char)
    (hstop : TABLE_ROW fuel { rem := rest, prev := some '\n' } = .error e) :
    ∀ (rows : List (List String)),
      (∀ row ∈ rows, row ≠ [] ∧ ∀ s ∈ row, validCell s) →
      (∀ row ∈ rows, row.length ≤ fuel + 1) →
      ∀ (fuel2 : Nat), rows.length ≤ fuel2 →
      ∀ (acc : List (List String)),
        manyAux (TABLE_ROW fuel) fuel2 { rem := tableText rows ++ rest, prev := some '\n' } acc
          = (acc.reverse ++ rows.map (fun row => row.map pyStrip),
             { rem := rest, prev := some '\n' }) := by
  intro rows
  induction rows with
  | nil =>
    intro _ _ fuel2 _ acc
    have h0 : tableText ([] : List (List String)) ++ rest = rest := by simp [tableText]
    rw [h0, manyAux_stop hstop fuel2 acc]
    simp
  | cons r rs ih =>
    intro hv hfc fuel2 hf2 acc
    have hrows : tableText (r :: rs) ++ rest = rowText r ++ (tableText rs ++ rest) := by
      simp [tableText, List.append_assoc]
    have hrowok : TABLE_ROW fuel { rem := tableText (r :: rs) ++ rest, prev := some '\n' }
        = .ok (r.map pyStrip, { rem := tableText rs ++ rest, prev := some '\n' }) := by
      rw [hrows]
      exact TABLE_ROW_ok r (hv r (by simp)).2 (hv r (by simp)).1 fuel (hfc r (by simp)) _ _
    cases fuel2 with
    | zero => simp at hf2
    | succ n =>
      simp only [manyAux, hrowok]
      rw [ih (fun row hr => hv row (by simp [hr])) (fun row hr => hfc row (by simp [hr])) n
        (Nat.le_of_succ_le_succ hf2) (r.map pyStrip :: acc)]
      simp

/-- A fully rendered table parses to its rows of trimmed cells. -/
theorem TABLE_ok (rows : List (List String)) (hne : rows ≠ [])
    (hv : ∀ row ∈ rows, row ≠ [] ∧ ∀ s ∈ row, validCell s)
    (fuel : Nat) (hfr : rows.length ≤ fuel + 1)
    (hfc : ∀ row ∈ rows, row.length ≤ fuel + 1)
    (rest e : List Char)
    (hstop : TABLE_ROW fuel { rem := rest, prev := some '\n' } = .error e)
    (pr : Option Char) :
    TABLE fuel { rem := tableText rows ++ rest, prev := pr }
      = .ok (rows.map (fun row => row.map pyStrip), { rem := rest, prev := some '\n' }) := by
  obtain ⟨r, rs, rfl⟩ := List.exists_cons_of_ne_nil hne
  have hrows : tableText (r :: rs) ++ rest = rowText r ++ (tableText rs ++ rest) := by
    simp [tableText, List.append_assoc]
  rw [hrows]
  have hfirst : TABLE_ROW fuel { rem := rowText r ++ (tableText rs ++ rest), prev := pr }
      = .ok (r.map pyStrip, { rem := tableText rs ++ rest, prev := some '\n' }) :=
    TABLE_ROW_ok r (hv r (by simp)).2 (hv r (by simp)).1 fuel (hfc r (by simp)) _ _
  have hloop := manyAux_rows fuel rest e hstop rs (fun row hr => hv row (by simp [hr]))
    (fun row hr => hfc row (by simp [hr])) fuel (Nat.le_of_succ_le_succ hfr) []
  simp only [TABLE, many1P, bindP_ok_of hfirst, hloop]
  simp

/- ===== Lookup in the dict of a zipped row ===== -/

theorem find?_append_of_some {l1 l2 : List (String × String)} {p : String × String → Bool}
    {x : String × String} (h : l1.find? p = some x) : (l1 ++ l2).find? p = some x := by
  induction l1 with
  | nil => cases h
  | cons a t ih =>
    by_cases hp : p a = true
    · rw [List.find?_cons_of_pos _ hp] at h
      rw [List.cons_append, List.find?_cons_of_pos _ hp]
      exact h
    · rw [List.find?_cons_of_neg _ (by simpa using hp)] at h
      rw [List.cons_append, List.find?_cons_of_neg _ (by simpa using hp)]
      exact ih h

theorem find?_append_of_none {l1 l2 : List (String × String)} {p : String × String → Bool}
    (h : l1.find? p = none) : (l1 ++ l2).find? p = l2.find? p := by
  induction l1 with
  | nil => simp
  | cons a t ih =>
    by_cases hp : p a = true
    · rw [List.find?_cons_of_pos _ hp] at h
      cases h
    · rw [List.find?_cons_of_neg _ (by simpa using hp)] at h
      rw [List.cons_append, List.find?_cons_of_neg _ (by simpa using hp)]
      exact ih h

/-- With distinct keys, looking the j-th key up in the dict built from
`zip keys values` returns the j-th value. -/
theorem dictGet_zip {ks : List String} (hnd : ks.Nodup) :
    ∀ (vs : List String) (j : Nat) (ki vi : String), ks[j]? = some ki → vs[j]? = some vi →
      dictGet (ks.zip vs) ki = some vi := by
  induction ks with
  | nil => intro vs j ki vi h; cases j <;> cases h
  | cons k kt ih =>
    intro vs j ki vi hk hv
    cases vs with
    | nil => cases j <;> cases hv
    | cons v vt =>
      cases j with
      | zero =>
        simp only [List.getElem?_cons_zero, Option.some.injEq] at hk hv
        subst hk
        subst hv
        simp only [dictGet, List.zip_cons_cons, List.reverse_cons]
        have hnone : ((kt.zip vt).reverse).find? (fun q => q.1 = k) = none := by
          rw [List.find?_eq_none]
          intro q hq
          have hmem : q.1 ∈ kt := (List.of_mem_zip (List.mem_reverse.mp hq)).1
          simp only [decide_eq_true_eq]
          intro heq
          exact (List.nodup_cons.mp hnd).1 (heq ▸ hmem)
        rw [find?_append_of_none hnone]
        simp [List.find?]
      | succ n =>
        simp only [List.getElem?_cons_succ] at hk hv
        have hrec := ih (List.nodup_cons.mp hnd).2 vt n ki vi hk hv
        simp only [dictGet] at hrec
        rcases hfind : ((kt.zip vt).reverse).find? (fun q => q.1 = ki) with _ | q
        · rw [hfind] at hrec
          cases hrec
        · rw [hfind] at hrec
          simp only [dictGet, List.zip_cons_cons, List.reverse_cons]
          rw [find?_append_of_some hfind]
          exact hrec

/-- Stripping a run of blanks yields the empty string. -/
theorem pyStrip_replicate_space (k : Nat) :
    pyStrip (String.mk (List.replicate k ' ')) = "" := by
  have hws : ∀ c ∈ List.replicate k ' ', isPyWs c = true := by
    intro c hc
    rw [List.eq_of_mem_replicate hc]
    rfl
  have hdrop : (List.replicate k ' ').dropWhile isPyWs = [] := by
    have h := dropWhile_append_all (List.replicate k ' ') hws []
    simpa using h
  simp only [pyStrip, hdrop]
  rfl

/- ===== C9: cells must be nonempty; blank cells trim to the empty string ===== -/

/-- C9: in the table-row rule each cell needs at least one character that is
neither `|` nor a newline — a row with two adjacent `|` fails to parse at that
point (whether the empty pair comes first or after valid cells), while a cell
of blanks is accepted and trims to the empty string. -/
theorem C9_row_cells (fuel : Nat) (cells : List String) (hv : ∀ s ∈ cells, validCell s)
    (hfuel : cells.length ≤ fuel) (rest : List Char) (pr : Option Char)
    (k : Nat) (hk : 1 ≤ k) :
    TABLE_ROW fuel { rem := '|' :: (cellsText cells ++ ('|' :: rest)), prev := pr }
      = .error ('|' :: rest) ∧
    TABLE_ROW fuel { rem := '|' :: (List.replicate k ' ' ++ ('|' :: ('\n' :: rest))), prev := pr }
      = .ok ([""], { rem := rest, prev := some '\n' }) := by
  constructor
  · have herr : tableCell { rem := '|' :: rest, prev := some '|' } = .error ('|' :: rest) :=
      tableCell_fail rfl (Or.inl rfl)
    cases cells with
    | nil =>
      have h0 : cellsText ([] : List String) ++ ('|' :: rest) = '|' :: rest := by
        simp [cellsText]
      rw [h0]
      have htok : tokLit ['|'] { rem := '|' :: ('|' :: rest), prev := pr }
          = .ok ((), { rem := '|' :: rest, prev := some '|' }) :=
        tokLit_ok' (r := '|' :: rest) (skipW_no _ rfl) rfl
      simp only [TABLE_ROW, bindP_ok_of htok, bindP_err_of (many1P_err herr)]
    | cons c cs =>
      have htok : tokLit ['|'] { rem := '|' :: (cellsText (c :: cs) ++ ('|' :: rest)), prev := pr }
          = .ok ((), { rem := cellsText (c :: cs) ++ ('|' :: rest), prev := some '|' }) :=
        tokLit_ok' (r := cellsText (c :: cs) ++ ('|' :: rest)) (skipW_no _ rfl) rfl
      have hcellrem : cellsText (c :: cs) ++ ('|' :: rest)
          = c.data ++ ('|' :: (cellsText cs ++ ('|' :: rest))) := by
        simp [cellsText, List.append_assoc]
      have hfirst : tableCell { rem := cellsText (c :: cs) ++ ('|' :: rest), prev := some '|' }
          = .ok (c, { rem := cellsText cs ++ ('|' :: rest), prev := some '|' }) := by
        rw [hcellrem]
        exact tableCell_ok (hv c (by simp)) _
      have hloop := manyAux_cells cs (fun s hs => hv s (by simp [hs]))
        fuel (by simpa using Nat.le_of_succ_le hfuel) ('|' :: rest) ('|' :: rest) herr []
      have hmany : many1P fuel tableCell
          { rem := cellsText (c :: cs) ++ ('|' :: rest), prev := some '|' }
          = .ok (c :: cs, { rem := '|' :: rest, prev := some '|' }) := by
        simp only [many1P, bindP_ok_of hfirst, hloop]
        simp
      have heol : EOL { rem := '|' :: rest, prev := some '|' } = .error ('|' :: rest) :=
        lineEndP_fail rfl rfl (by decide)
      simp only [TABLE_ROW, bindP_ok_of htok, bindP_ok_of hmany, bindP_err_of heol]
  · have hvalid : validCell (String.mk (List.replicate k ' ')) := by
      refine ⟨?_, ?_⟩
      · intro hnil
        have hk0 : k = 0 := by
          have hlen := congrArg List.length (hnil : List.replicate k ' ' = [])
          simpa using hlen
        omega
      · intro c hc
        rw [List.eq_of_mem_replicate hc]
        exact ⟨by decide, by decide⟩
    have hrow : rowText [String.mk (List.replicate k ' ')] ++ rest
        = '|' :: (List.replicate k ' ' ++ ('|' :: ('\n' :: rest))) := by
      simp [rowText, cellsText, List.append_assoc]
    have h := TABLE_ROW_ok [String.mk (List.replicate k ' ')]
      (by intro s hs; rw [List.mem_singleton] at hs; rw [hs]; exact hvalid)
      (by simp) fuel (by simp) rest pr
    rw [hrow] at h
    rw [h]
    simp [pyStrip_replicate_space k]

/- ===== C1: table fidelity, keys and hashes ===== -/

/-- C1: a table block of R rows with C cells each parses to a table of exactly
R rows and C cells per row, every cell trimmed; on a Statement carrying that
table, `keys` is row 0 of the parsed table, and `hashes` holds exactly R-1
dicts, the i-th mapping each (distinct) column key of row 0 to the
corresponding cell of row i. -/
theorem C1_table_fidelity (rows : List (List String)) (fuel : Nat)
    (hne : rows ≠ [])
    (hv : ∀ row ∈ rows, row ≠ [] ∧ ∀ s ∈ row, validCell s)
    (C : Nat) (hC : ∀ row ∈ rows, row.length = C)
    (hfr : rows.length ≤ fuel + 1) (hfc : ∀ row ∈ rows, row.length ≤ fuel + 1)
    (rest e : List Char)
    (hstop : TABLE_ROW fuel { rem := rest, prev := some '\n' } = .error e)
    (pr : Option Char) (kw remainder : String) :
    TABLE fuel { rem := tableText rows ++ rest, prev := pr }
      = .ok (rows.map (fun row => row.map pyStrip), { rem := rest, prev := some '\n' }) ∧
    (rows.map (fun row => row.map pyStrip)).length = rows.length ∧
    (∀ row ∈ rows.map (fun row => row.map pyStrip), row.length = C) ∧
    (∀ r0 rs, rows = r0 :: rs →
      (Statement.build kw remainder
        (some (.inl (rows.map (fun row => row.map pyStrip))))).keys
        = some (r0.map pyStrip) ∧
      (Statement.build kw remainder
        (some (.inl (rows.map (fun row => row.map pyStrip))))).hashes
        = some ((rs.map (fun row => row.map pyStrip)).map
            (fun row => (r0.map pyStrip).zip row)) ∧
      ((rs.map (fun row => row.map pyStrip)).map
        (fun row => (r0.map pyStrip).zip row)).length = rows.length - 1 ∧
      ((r0.map pyStrip).Nodup →
        ∀ (i : Nat) (row : List String), rs[i]? = some row →
        ∀ (j : Nat) (ki vi : String),
          (r0.map pyStrip)[j]? = some ki → (row.map pyStrip)[j]? = some vi →
          dictGet ((r0.map pyStrip).zip (row.map pyStrip)) ki = some vi)) := by
  refine ⟨TABLE_ok rows hne hv fuel hfr hfc rest e hstop pr, by simp, ?_, ?_⟩
  · intro row hrow
    rw [List.mem_map] at hrow
    obtain ⟨row0, hr0, rfl⟩ := hrow
    simp [hC row0 hr0]
  · intro r0 rs hrw
    subst hrw
    refine ⟨rfl, rfl, by simp, ?_⟩
    intro hnd i row hi j ki vi hkj hvj
    exact dictGet_zip hnd (row.map pyStrip) j ki vi hkj hvj

/-- Witness for C9: `||` makes the row fail; `| |` yields one empty cell. -/
theorem C9_row_cells_witness :
    TABLE_ROW 3 { rem := '|' :: (cellsText ["a"] ++ ('|' :: [])), prev := none }
      = .error ('|' :: []) ∧
    TABLE_ROW 3 { rem := '|' :: (List.replicate 2 ' ' ++ ('|' :: ('\n' :: []))), prev := none }
      = .ok ([""], { rem := [], prev := some '\n' }) :=
  C9_row_cells 3 ["a"] (by decide) (by decide) [] none 2 (by decide)

/-- Witness for C1 at a concrete 2-by-2 table. -/
theorem C1_table_fidelity_witness :
    TABLE 3 { rem := tableText [["k1", "k2"], [" a ", "b"]] ++ [], prev := none }
      = .ok ([["k1", "k2"], ["a", "b"]], { rem := [], prev := some '\n' }) ∧
    (Statement.build "Given" " t" (some (.inl [["k1", "k2"], ["a", "b"]]))).keys
      = some ["k1", "k2"] ∧
    (Statement.build "Given" " t" (some (.inl [["k1", "k2"], ["a", "b"]]))).hashes
      = some [[("k1", "a"), ("k2", "b")]] ∧
    dictGet [("k1", "a"), ("k2", "b")] "k2" = some "b" := by
  have h := C1_table_fidelity [["k1", "k2"], [" a ", "b"]] 3 (by decide) (by decide) 2
    (by decide) (by decide) (by decide) [] [] (by rfl) none "Given" " t"
  exact ⟨h.1, by rfl, by rfl, by rfl⟩

/- ===== Rendering and parsing of tag lines ===== -/

/-- A well-formed tag word: nonempty and made of printable characters. -/
def validTag (t : String) : Prop :=
  t.data ≠ [] ∧ ∀ c ∈ t.data, isPrintableChar c = true

instance (t : String) : Decidable (validTag t) := by
  unfold validTag
  infer_instance

/-- The source text of a run of tag lines: `@tag` lines, one per tag. -/
def tagsText (tags : List String) : List Char :=
  (tags.map (fun t => '@' :: (t.data ++ ['\n']))).flatten

/-- A printable character is not whitespace. -/
theorem printable_not_ws {c : Char} (h : isPrintableChar c = true) : isWsDefault c = false := by
  simp only [isPrintableChar, Bool.and_eq_true, decide_eq_true_eq] at h
  obtain ⟨h1, h2⟩ := h
  have hs : ¬ c = ' ' := by intro hc; subst hc; exact absurd h1 (by decide)
  have ht : ¬ c = '\t' := by intro hc; subst hc; exact absurd h1 (by decide)
  have hn : ¬ c = '\n' := by intro hc; subst hc; exact absurd h1 (by decide)
  simp [isWsDefault, hs, ht, hn]

/-- A rendered tag line parses to its Tag and consumes its newline. -/
theorem TAG_ok {t : String} (hv : validTag t) (rest : List Char) (pr : Option Char) :
    TAG { rem := '@' :: (t.data ++ ('\n' :: rest)), prev := pr }
      = .ok ({ tag := t }, { rem := rest, prev := some '\n' }) := by
  have htok : tokLit ['@'] { rem := '@' :: (t.data ++ ('\n' :: rest)), prev := pr }
      = .ok ((), { rem := t.data ++ ('\n' :: rest), prev := some '@' }) :=
    tokLit_ok' (r := t.data ++ ('\n' :: rest)) (skipW_no _ rfl) rfl
  have hheadnot : headNot isWsDefault (t.data ++ ('\n' :: rest)) := by
    rcases hd : t.data with _ | ⟨c, cs⟩
    · exact absurd hd hv.1
    · show isWsDefault c = false
      exact printable_not_ws (hv.2 c (by rw [hd]; simp))
  have hword : wordP isPrintableChar { rem := t.data ++ ('\n' :: rest), prev := some '@' }
      = .ok (String.mk t.data, { rem := '\n' :: rest, prev := lastOpt t.data (some '@') }) :=
    wordP_ok (skipW_no _ hheadnot) rfl hv.2 hv.1 rfl
  have heol : EOL { rem := '\n' :: rest, prev := lastOpt t.data (some '@') }
      = .ok ((), { rem := rest, prev := some '\n' }) := lineEndP_nl rfl
  have hmk : String.mk t.data = t := rfl
  simp only [TAG, bindP_ok_of htok, bindP_ok_of hword, bindP_ok_of heol, pureP, hmk]

/-- A tag line fails, whatever the previous character, when after whitespace
skipping the input does not start with `@`. -/
theorem TAG_fail2 {rest : List Char} (h : dropLit ['@'] (rest.dropWhile isWsDefault) = none)
    (pr : Option Char) : TAG { rem := rest, prev := pr } = .error (rest.dropWhile isWsDefault) := by
  simp only [TAG]
  apply bindP_err_of
  simp only [tokLit, skipW, litRaw, h]

/-- The tag loop consumes exactly the rendered tag lines, in order. -/
theorem manyAux_tags (tags : List String) (hv : ∀ t ∈ tags, validTag t) :
    ∀ (fuel : Nat), tags.length ≤ fuel →
    ∀ (rest : List Char), dropLit ['@'] (rest.dropWhile isWsDefault) = none →
    ∀ (pr : Option Char) (acc : List Tag),
      manyAux TAG fuel { rem := tagsText tags ++ rest, prev := pr } acc
        = (acc.reverse ++ tags.map (fun t => { tag := t }),
           { rem := rest, prev := if tags.isEmpty then pr else some '\n' }) := by
  induction tags with
  | nil =>
    intro fuel _ rest hstop pr acc
    have h0 : tagsText ([] : List String) ++ rest = rest := by simp [tagsText]
    rw [h0, manyAux_stop (TAG_fail2 hstop pr) fuel acc]
    simp
  | cons t ts ih =>
    intro fuel hfuel rest hstop pr acc
    have hrem : tagsText (t :: ts) ++ rest = '@' :: (t.data ++ ('\n' :: (tagsText ts ++ rest))) := by
      simp [tagsText, List.append_assoc]
    rw [hrem]
    have htag := TAG_ok (hv t (by simp)) (tagsText ts ++ rest) pr
    cases fuel with
    | zero => simp at hfuel
    | succ n =>
      simp only [manyAux, htag]
      rw [ih (fun x hx => hv x (by simp [hx])) n (Nat.le_of_succ_le_succ hfuel) rest hstop
        (some '\n') ({ tag := t } :: acc)]
      cases hts : ts.isEmpty <;> simp

/- ===== C7: tag attachment to a scenario ===== -/

/-- C7: a scenario header directly preceded by N `@tag` lines parses to a
scenario definition carrying exactly N Tags, in source order; the scenario rule
then copies that tag list unchanged onto the Scenario node. -/
theorem C7_tags (tags : List String) (fuel : Nat)
    (hv : ∀ t ∈ tags, validTag t) (hfuel : tags.length ≤ fuel)
    (name : String) (hn : name.data ≠ []) (hnh : headNot isWsDefault name.data)
    (hnl : ∀ c ∈ name.data, (!(c = '\n') : Bool) = true)
    (rest : List Char) (pr : Option Char) (hpr : prevOk pr = true) :
    SCENARIO_DEFN fuel
      { rem := tagsText tags ++ (("Scenario: ").data ++ (name.data ++ ('\n' :: rest))),
        prev := pr }
      = .ok ((tags.map (fun t => { tag := t }), name),
             { rem := '\n' :: rest, prev := lastOpt name.data (some ' ') }) ∧
    (tags.map (fun t => ({ tag := t } : Tag))).length = tags.length ∧
    (∀ (i : Nat) (t : String), tags[i]? = some t →
      (tags.map (fun t => ({ tag := t } : Tag)))[i]? = some { tag := t }) ∧
    (∀ (st : PState) (sc : Scenario) (st' : PState),
      SCENARIO_BLOCK fuel st = .ok (sc, st') →
      ∃ nmtags st1, SCENARIO_DEFN fuel st = .ok (nmtags, st1) ∧
        sc.tags = nmtags.1 ∧ sc.name = nmtags.2) := by
  have hd : ("Scenario: " : String).data = ['S','c','e','n','a','r','i','o',':',' '] := rfl
  rw [hd]
  have hnameHead : headNot isWsDefault (name.data ++ ('\n' :: rest)) := by
    rcases hd2 : name.data with _ | ⟨c, cs⟩
    · exact absurd hd2 hn
    · rw [hd2] at hnh
      exact hnh
  refine ⟨?_, by simp, ?_, ?_⟩
  · have hstop : dropLit ['@']
        ((['S','c','e','n','a','r','i','o',':',' ']
          ++ (name.data ++ ('\n' :: rest))).dropWhile isWsDefault) = none := by
      rw [dropWhile_stop
        (['S','c','e','n','a','r','i','o',':',' '] ++ (name.data ++ ('\n' :: rest)))
        (by constructor)]
      rfl
    have hloop := manyAux_tags tags hv fuel hfuel
      (['S','c','e','n','a','r','i','o',':',' '] ++ (name.data ++ ('\n' :: rest))) hstop pr []
    have hmany : manyP fuel TAG
        { rem := tagsText tags
            ++ (['S','c','e','n','a','r','i','o',':',' '] ++ (name.data ++ ('\n' :: rest))),
          prev := pr }
        = .ok (tags.map (fun t => { tag := t }),
               { rem := ['S','c','e','n','a','r','i','o',':',' '] ++ (name.data ++ ('\n' :: rest)),
                 prev := if tags.isEmpty then pr else some '\n' }) := by
      simp only [manyP, hloop]
      simp
    have hpr2 : prevOk (if tags.isEmpty then pr else some '\n') = true := by
      cases h : tags.isEmpty
      · simp only [h, Bool.false_eq_true, if_false]
        decide
      · simp only [h, if_true]
        exact hpr
    have hkw : keywordP ['S','c','e','n','a','r','i','o']
        { rem := ['S','c','e','n','a','r','i','o',':',' '] ++ (name.data ++ ('\n' :: rest)),
          prev := if tags.isEmpty then pr else some '\n' }
        = .ok (String.mk ['S','c','e','n','a','r','i','o'],
               { rem := ':' :: (' ' :: (name.data ++ ('\n' :: rest))), prev := some 'o' }) :=
      keywordP_ok' (c := ':') (r := ' ' :: (name.data ++ ('\n' :: rest)))
        (skipW_no _ rfl) (by simp) hpr2 (by decide)
    have hout : keywordP ['O','u','t','l','i','n','e']
        { rem := ':' :: (' ' :: (name.data ++ ('\n' :: rest))), prev := some 'o' }
        = .error (':' :: (' ' :: (name.data ++ ('\n' :: rest)))) :=
      keywordP_fail_prev (skipW_no _ (by constructor)) rfl
    have hopt := optP_err_of hout
    have hcol : tokLit [':']
        { rem := ':' :: (' ' :: (name.data ++ ('\n' :: rest))), prev := some 'o' }
        = .ok ((), { rem := ' ' :: (name.data ++ ('\n' :: rest)), prev := some ':' }) :=
      tokLit_ok' (r := ' ' :: (name.data ++ ('\n' :: rest))) (skipW_no _ rfl) rfl
    have hwhite : whiteP { rem := ' ' :: (name.data ++ ('\n' :: rest)), prev := some ':' }
        = .ok ((), { rem := name.data ++ ('\n' :: rest), prev := some ' ' }) :=
      whiteP_ok (x := [' ']) rfl (by decide) (by decide) hnameHead
    have hrol : restOfLineP { rem := name.data ++ ('\n' :: rest), prev := some ' ' }
        = .ok (String.mk name.data,
               { rem := '\n' :: rest, prev := lastOpt name.data (some ' ') }) :=
      restOfLineP_ok rfl hnl rfl
    have hmk : String.mk name.data = name := rfl
    simp only [SCENARIO_DEFN, bindP_ok_of hmany, bindP_ok_of hkw, bindP_ok_of hopt,
      bindP_ok_of hcol, bindP_ok_of hwhite, bindP_ok_of hrol, pureP, hmk]
  · intro i t h
    simp [List.getElem?_map, h]
  · intro st sc st' h
    simp only [SCENARIO_BLOCK] at h
    rw [bindP_ok_iff] at h
    obtain ⟨defn, st1, h1, h⟩ := h
    rw [bindP_ok_iff] at h
    obtain ⟨sts, st2, h2, h⟩ := h
    rw [bindP_ok_iff] at h
    obtain ⟨ex, st3, h3, h⟩ := h
    simp only [pureP] at h
    injection h with h
    rw [Prod.mk.injEq] at h
    obtain ⟨rfl, rfl⟩ := h
    exact ⟨defn, st1, h1, rfl, rfl⟩

/-- Witness for C7: two tag lines before a scenario header. -/
theorem C7_tags_witness :
    SCENARIO_DEFN 3
      { rem := tagsText ["t1", "t2"] ++ (("Scenario: ").data ++ (("S").data ++ ('\n' :: []))),
        prev := none }
      = .ok (([{ tag := "t1" }, { tag := "t2" }], "S"),
             { rem := ['\n'], prev := some 'S' }) := by
  exact (C7_tags ["t1", "t2"] 3 (by decide) (by decide) "S" (by decide) rfl (by decide)
    [] none rfl).1

/- ===== Multiline scanning ===== -/

/-- Does the list contain three consecutive double quotes anywhere? -/
def hasTriple : List Char → Bool
  | [] => false
  | c :: rest => startsTriple (c :: rest) || hasTriple rest

/-- The scan for the closing quotes finds exactly the rendered content when the
content itself holds no triple quote and does not end in a quote. -/
theorem findTriple_exact (content : List Char) (h1 : hasTriple content = false)
    (h2 : content.getLast? ≠ some '"') (rest : List Char) :
    findTriple (content ++ '"' :: ('"' :: ('"' :: rest))) = some (content, rest) := by
  induction content with
  | nil =>
    simp only [List.nil_append, findTriple]
    rw [if_pos (by simp [startsTriple])]
    simp
  | cons c cs ih =>
    have hsplit := (Bool.or_eq_false_iff.mp (by simpa [hasTriple] using h1))
    have h1' : hasTriple cs = false := hsplit.2
    have hstep : startsTriple (c :: (cs ++ '"' :: ('"' :: ('"' :: rest)))) = false := by
      cases cs with
      | nil =>
        have hcq : ¬ c = '"' := by
          intro hq
          exact h2 (by simp [hq])
        simp [startsTriple, hcq]
      | cons d ds =>
        cases ds with
        | nil =>
          have hdq : ¬ d = '"' := by
            intro hq
            exact h2 (by simp [hq])
          simp [startsTriple, hdq]
        | cons e es =>
          have hne : ¬ (c = '"' ∧ d = '"' ∧ e = '"') := by
            rintro ⟨rfl, rfl, rfl⟩
            have : startsTriple ('"' :: ('"' :: ('"' :: es))) = true := by
              simp [startsTriple]
            rw [hasTriple] at h1
            simp only [this, Bool.true_or] at h1
            cases h1
          simp only [List.cons_append, startsTriple, Bool.and_eq_false_iff]
          by_cases hc : c = '"'
          · by_cases hd : d = '"'
            · right
              right
              simp only [beq_eq_false_iff_ne, ne_eq]
              intro he
              exact hne ⟨hc, hd, he⟩
            · right
              left
              simp [hd]
          · left
            simp [hc]
    have h2' : cs.getLast? ≠ some '"' := by
      cases cs with
      | nil => simp
      | cons d ds =>
        intro hl
        exact h2 (by rw [List.getLast?_cons_cons]; exact hl)
    simp only [List.cons_append, findTriple]
    rw [if_neg (by simp [hstep])]
    simp only [List.append_eq]
    rw [ih h1' h2']

/- ===== C2: multiline payload fidelity ===== -/

/-- C2: for a statement followed by a `"""` block, the text between the opening
and the closing delimiters — embedded newlines, blank lines and all internal
whitespace included — is stored in the Statement's multiline field verbatim,
with no trimming. -/
theorem C2_multiline_fidelity (fuel : Nat) (line ws' : List Char) (content : String)
    (rest : List Char) (pr : Option Char)
    (hline : ∀ c ∈ line, (!(c = '\n') : Bool) = true)
    (hbnd : headNot identChar (line ++ ['\n']))
    (hws : ∀ c ∈ ws', isWsDefault c = true)
    (hc1 : hasTriple content.data = false)
    (hc2 : content.data.getLast? ≠ some '"')
    (hpr : prevOk pr = true) :
    STATEMENT fuel
      { rem := ("Given").data ++ (line ++ ('\n' :: (ws' ++ ('"' :: ('"' :: ('"' ::
          (content.data ++ ('"' :: ('"' :: ('"' :: rest)))))))))), prev := pr }
      = .ok ({ statement := "Given" ++ String.mk line, table := none,
               multiline := some content },
             { rem := rest, prev := some '"' }) := by
  have hd : ("Given" : String).data = ['G', 'i', 'v', 'e', 'n'] := rfl
  rw [hd]
  have hb2 : headNot identChar
      (line ++ ('\n' :: (ws' ++ ('"' :: ('"' :: ('"' ::
        (content.data ++ ('"' :: ('"' :: ('"' :: rest)))))))))) := by
    cases line with
    | nil => exact (by decide : identChar '\n' = false)
    | cons c cs => exact hbnd
  have hne2 : line ++ ('\n' :: (ws' ++ ('"' :: ('"' :: ('"' ::
      (content.data ++ ('"' :: ('"' :: ('"' :: rest))))))))) ≠ [] := by
    cases line <;> simp
  have hkw : keywordP ['G', 'i', 'v', 'e', 'n']
      { rem := ['G', 'i', 'v', 'e', 'n'] ++ (line ++ ('\n' :: (ws' ++ ('"' :: ('"' :: ('"' ::
          (content.data ++ ('"' :: ('"' :: ('"' :: rest)))))))))), prev := pr }
      = .ok (String.mk ['G', 'i', 'v', 'e', 'n'],
             { rem := line ++ ('\n' :: (ws' ++ ('"' :: ('"' :: ('"' ::
                 (content.data ++ ('"' :: ('"' :: ('"' :: rest))))))))),
               prev := some 'n' }) :=
    keywordP_ok2 (skipW_no _ (by constructor)) rfl hpr hne2 hb2
  have hstmtkw : stmtKeywordP
      { rem := ['G', 'i', 'v', 'e', 'n'] ++ (line ++ ('\n' :: (ws' ++ ('"' :: ('"' :: ('"' ::
          (content.data ++ ('"' :: ('"' :: ('"' :: rest)))))))))), prev := pr }
      = .ok (String.mk ['G', 'i', 'v', 'e', 'n'],
             { rem := line ++ ('\n' :: (ws' ++ ('"' :: ('"' :: ('"' ::
                 (content.data ++ ('"' :: ('"' :: ('"' :: rest))))))))),
               prev := some 'n' }) := orElseP_ok_left hkw
  have hrol : restOfLineP
      { rem := line ++ ('\n' :: (ws' ++ ('"' :: ('"' :: ('"' ::
          (content.data ++ ('"' :: ('"' :: ('"' :: rest))))))))), prev := some 'n' }
      = .ok (String.mk line,
             { rem := '\n' :: (ws' ++ ('"' :: ('"' :: ('"' ::
                 (content.data ++ ('"' :: ('"' :: ('"' :: rest)))))))),
               prev := lastOpt line (some 'n') }) :=
    restOfLineP_ok rfl hline rfl
  have hskipws : skipW isWsDefault
      { rem := '\n' :: (ws' ++ ('"' :: ('"' :: ('"' ::
          (content.data ++ ('"' :: ('"' :: ('"' :: rest)))))))),
        prev := lastOpt line (some 'n') }
      = { rem := '"' :: ('"' :: ('"' :: (content.data ++ ('"' :: ('"' :: ('"' :: rest)))))),
          prev := lastOpt ('\n' :: ws') (lastOpt line (some 'n')) } :=
    skipW_over ('\n' :: ws')
      (by intro x hx; rcases List.mem_cons.mp hx with h | h
          · rw [h]; rfl
          · exact hws x h)
      ('"' :: ('"' :: ('"' :: (content.data ++ ('"' :: ('"' :: ('"' :: rest)))))))
      (by constructor) (lastOpt line (some 'n'))
  have hTfail : TABLE fuel
      { rem := '\n' :: (ws' ++ ('"' :: ('"' :: ('"' ::
          (content.data ++ ('"' :: ('"' :: ('"' :: rest)))))))),
        prev := lastOpt line (some 'n') }
      = .error ('"' :: ('"' :: ('"' :: (content.data ++ ('"' :: ('"' :: ('"' :: rest))))))) :=
    many1P_err (bindP_err_of (tokLit_fail hskipws rfl))
  have hMok : MULTILINE
      { rem := '\n' :: (ws' ++ ('"' :: ('"' :: ('"' ::
          (content.data ++ ('"' :: ('"' :: ('"' :: rest)))))))),
        prev := lastOpt line (some 'n') }
      = .ok (content, { rem := rest, prev := some '"' }) := by
    have hdl : dropLit tripleQuote
        ('"' :: ('"' :: ('"' :: (content.data ++ ('"' :: ('"' :: ('"' :: rest)))))))
        = some (content.data ++ ('"' :: ('"' :: ('"' :: rest)))) :=
      dropLit_append tripleQuote (content.data ++ ('"' :: ('"' :: ('"' :: rest))))
    have hft := findTriple_exact content.data hc1 hc2 rest
    have hmk : String.mk content.data = content := rfl
    simp only [MULTILINE, hskipws, hdl, hft, hmk]
  have hdata : STATEMENT_DATA fuel
      { rem := '\n' :: (ws' ++ ('"' :: ('"' :: ('"' ::
          (content.data ++ ('"' :: ('"' :: ('"' :: rest)))))))),
        prev := lastOpt line (some 'n') }
      = .ok (some (.inr content), { rem := rest, prev := some '"' }) := by
    simp only [STATEMENT_DATA]
    rw [optP_ok_of (orElseP_err_ok (mapP_err_of hTfail) (mapP_ok_of hMok))]
  simp only [STATEMENT, bindP_ok_of hstmtkw, bindP_ok_of hrol, bindP_ok_of hdata, pureP]
  rfl

/-- Witness for C2: a multiline block with an embedded blank line and untrimmed
internal whitespace. -/
theorem C2_multiline_fidelity_witness :
    STATEMENT 3
      { rem := ("Given").data ++ ((' ' :: ['x']) ++ ('\n' :: ([] ++ ('"' :: ('"' :: ('"' ::
          (("\n  a \n\n b\n").data ++ ('"' :: ('"' :: ('"' :: [])))))))))), prev := none }
      = .ok ({ statement := "Given" ++ String.mk (' ' :: ['x']), table := none,
               multiline := some "\n  a \n\n b\n" },
             { rem := [], prev := some '"' }) := by
  exact C2_multiline_fidelity 3 (' ' :: ['x']) [] "\n  a \n\n b\n" [] none (by decide) rfl
    (by intro c hc; cases hc) (by decide) (by decide) rfl

/- ===== C4: failures surface a syntax error and no feature ===== -/

/-- C4: whenever the grammar fails on an input, `from_string` surfaces a syntax
error carrying the line number, the column, the offending line's text (which
contains no newline) and a caret pointer whose length equals the column (so the
caret sits under the failing column), and produces no Feature value at all. -/
theorem C4_syntax_error (s : String) (e : List Char)
    (hfail : featureRun s = .error e) :
    from_string s = .error (mkSyntaxError s.data e) ∧
    (mkSyntaxError s.data e).pointer.data.length = (mkSyntaxError s.data e).col ∧
    1 ≤ (mkSyntaxError s.data e).col ∧
    1 ≤ (mkSyntaxError s.data e).lineno ∧
    (∀ c ∈ (mkSyntaxError s.data e).line.data, ¬ c = '\n') ∧
    (∀ f : Feature, from_string s ≠ .ok f) := by
  have hfs : from_string s = .error (mkSyntaxError s.data e) := by
    simp only [from_string, hfail]
  refine ⟨hfs, ?_, ?_, ?_, ?_, ?_⟩
  · simp [mkSyntaxError, pyCol]
  · simp [mkSyntaxError, pyCol]
  · simp [mkSyntaxError, pyLineno]
  · intro c hc
    simp only [mkSyntaxError, pyLine] at hc
    rw [List.mem_append] at hc
    rcases hc with h | h
    · have hp := forall_mem_takeWhile _ c (List.mem_reverse.mp h)
      simpa using hp
    · have hp := forall_mem_takeWhile _ c h
      simpa using hp
  · intro f hok
    rw [hfs] at hok
    cases hok

/-- Witness for C4: an input with no `Feature:` header fails at line 1,
column 1. -/
theorem C4_syntax_error_witness :
    featureRun "foo" = .error ['f', 'o', 'o'] ∧
    from_string "foo" = .error (mkSyntaxError ("foo").data ['f', 'o', 'o']) ∧
    mkSyntaxError ("foo").data ['f', 'o', 'o']
      = { lineno := 1, col := 1, line := "foo", pointer := "^" } ∧
    (∀ f : Feature, from_string "foo" ≠ .ok f) := by
  refine ⟨rfl, (C4_syntax_error "foo" ['f', 'o', 'o'] rfl).1, rfl,
    (C4_syntax_error "foo" ['f', 'o', 'o'] rfl).2.2.2.2.2⟩
